import Mathlib

/-!
Shallow embedding of the staged system-list cache and fuzzy-search core of
`src/frontend/mame/ui/selgame.cpp` (class `menu_select_game::persistent_data`
and `menu_select_game::populate_search`).

Modelling conventions:
* C++ `std::string`, `std::wstring` and `std::u32string` are all modelled as
  Lean `String`; `wstring_from_utf8` / `ustr_from_utf8` are value-preserving
  conversions and are modelled as the identity.
* The locale collation `std::collate<wchar_t>::compare` used by the sort is
  modelled as lexicographic code-point comparison (the classic-locale
  behaviour).
* `std::stable_sort` is modelled by a stable insertion sort (`stableSort`);
  for the comparators in question any stable sort produces the same list.
* The availability bitmask `m_available` (`std::atomic<unsigned>`) is a `Nat`
  used as a bitmask with exactly the bit assignments of the C++ `enum
  available`; `fetch_or` with release order and loads with acquire order are
  modelled as plain bitwise operations on the sequentialised state machine.
* The mutex serialises `cache_data` / `reset_cache`, so concurrent call
  sequences are modelled as arbitrary sequential compositions of operations.
-/

namespace Selgame

/-- A catalog record (`game_driver`): shortname, parent shortname (`"0"` when
there is no parent), full name, manufacturer, year and the
`machine_flags::IS_BIOS_ROOT` flag. -/
structure GameDriver where
  name : String
  parent : String
  fullname : String
  manufacturer : String
  year : String
  isBiosRoot : Bool
deriving DecidableEq

/-- `ui_system_info`: a catalog record plus the derived fields filled in by
the staged cache build.  Fields default to the values the C++ constructor
`ui_system_info(driver, index, available)` leaves them with. -/
structure UiSystemInfo where
  driver : GameDriver
  index : Nat
  available : Bool := false
  is_clone : Bool := false
  description : String := ""
  parent : String := ""
  reading_description : String := ""
  reading_parent : String := ""
  ucs_shortname : String := ""
  ucs_description : String := ""
  ucs_reading_description : String := ""
  ucs_manufacturer_description : String := ""
  ucs_manufacturer_reading_description : String := ""
  ucs_default_description : String := ""
  ucs_manufacturer_default_description : String := ""
deriving DecidableEq

/-- Lexicographic code-point "less than" on character sequences. -/
def lexLt : List Char → List Char → Bool
  | [], [] => false
  | [], _ :: _ => true
  | _ :: _, [] => false
  | a :: as, b :: bs =>
      if a < b then true
      else if b < a then false
      else lexLt as bs

/-- The lambda `compare_names` of `do_cache_data`: locale-collated "less
than" on display names, modelled as lexicographic code-point order. -/
def compareNames (x y : String) : Bool :=
  lexLt x.data y.data

/-- The display name used by the sort comparator for a record itself:
`reading_description` if non-empty, else `description`. -/
def displayDescription (i : UiSystemInfo) : String :=
  if i.reading_description = "" then i.description else i.reading_description

/-- The display name used by the sort comparator for a record's parent:
`reading_parent` if non-empty, else the `parent` description field. -/
def displayParent (i : UiSystemInfo) : String :=
  if i.reading_parent = "" then i.parent else i.reading_parent

/-- The sort comparator passed to `std::stable_sort` in `do_cache_data`
(selgame.cpp lines 201-253): the clone-aware four-way case split.  The
shortname comparisons `strcmp(x.parent, y.parent)`, `strcmp(x.name,
y.parent)` and `strcmp(x.parent, y.name)` are on the `game_driver` fields. -/
def sortCompare (lhs rhs : UiSystemInfo) : Bool :=
  match lhs.is_clone, rhs.is_clone with
  | false, false =>
      compareNames (displayDescription lhs) (displayDescription rhs)
  | true, true =>
      if lhs.driver.parent = rhs.driver.parent then
        compareNames (displayDescription lhs) (displayDescription rhs)
      else
        compareNames (displayParent lhs) (displayParent rhs)
  | false, true =>
      if lhs.driver.name = rhs.driver.parent then true
      else compareNames (displayDescription lhs) (displayParent rhs)
  | true, false =>
      if lhs.driver.parent = rhs.driver.name then false
      else compareNames (displayParent lhs) (displayDescription rhs)

/-- Insert one element into a list, skipping over strictly smaller elements:
the insertion step of a stable sort with strict comparator `lt`. -/
def insertSorted (lt : α → α → Bool) (a : α) : List α → List α
  | [] => [a]
  | b :: bs => if lt b a then b :: insertSorted lt a bs else a :: b :: bs

/-- Stable insertion sort with strict comparator `lt`: the model of
`std::stable_sort`. -/
def stableSort (lt : α → α → Bool) : List α → List α
  | [] => []
  | a :: as => insertSorted lt a (stableSort lt as)

theorem length_insertSorted (lt : α → α → Bool) (a : α) (l : List α) :
    (insertSorted lt a l).length = l.length + 1 := by
  induction l with
  | nil => rfl
  | cons b bs ih =>
      simp only [insertSorted]
      split
      · simp [ih]
      · simp

theorem length_stableSort (lt : α → α → Bool) (l : List α) :
    (stableSort lt l).length = l.length := by
  induction l with
  | nil => rfl
  | cons a as ih => rw [stableSort, length_insertSorted, ih, List.length_cons]

theorem mem_insertSorted (lt : α → α → Bool) (a x : α) (l : List α) :
    x ∈ insertSorted lt a l ↔ x = a ∨ x ∈ l := by
  induction l with
  | nil => simp [insertSorted]
  | cons b bs ih =>
      simp only [insertSorted]
      split
      · simp only [List.mem_cons, ih]
        tauto
      · simp [List.mem_cons]

theorem head?_insertSorted (lt : α → α → Bool) (a : α) (l : List α) :
    (insertSorted lt a l).head? = some a ∨ (insertSorted lt a l).head? = l.head? := by
  cases l with
  | nil => left; rfl
  | cons b bs =>
      simp only [insertSorted]
      split
      · right; rfl
      · left; rfl

/-- If the comparator is asymmetric, inserting into a list in which no
adjacent pair is out of order keeps that property. -/
theorem chain'_insertSorted (lt : α → α → Bool)
    (hasym : ∀ x y, lt x y = true → lt y x = false)
    (a : α) (l : List α) (hl : List.Chain' (fun x y => lt y x = false) l) :
    List.Chain' (fun x y => lt y x = false) (insertSorted lt a l) := by
  induction l with
  | nil => simp [insertSorted]
  | cons b bs ih =>
      rw [List.chain'_cons'] at hl
      simp only [insertSorted]
      split
      · rename_i hba
        rw [List.chain'_cons']
        refine ⟨?_, ih hl.2⟩
        intro y hy
        rcases head?_insertSorted lt a bs with h | h
        · rw [h] at hy
          simp only [Option.mem_def, Option.some.injEq] at hy
          subst hy
          exact hasym _ _ hba
        · rw [h] at hy
          exact hl.1 y hy
      · rename_i hba
        rw [List.chain'_cons']
        refine ⟨?_, List.chain'_cons'.mpr hl⟩
        intro y hy
        simp only [List.head?_cons, Option.mem_def, Option.some.injEq] at hy
        subst hy
        simpa using hba

/-- With an asymmetric comparator, the output of the stable sort has no
adjacent pair ordered the wrong way round. -/
theorem chain'_stableSort (lt : α → α → Bool)
    (hasym : ∀ x y, lt x y = true → lt y x = false) (l : List α) :
    List.Chain' (fun x y => lt y x = false) (stableSort lt l) := by
  induction l with
  | nil => simp [stableSort]
  | cons a as ih => exact chain'_insertSorted lt hasym a _ ih

theorem mem_stableSort (lt : α → α → Bool) (x : α) (l : List α) :
    x ∈ stableSort lt l ↔ x ∈ l := by
  induction l with
  | nil => simp [stableSort]
  | cons a as ih => simp [stableSort, mem_insertSorted, ih]

/-- Ascending lexicographic order on (score, original position) pairs: the
ordering a stable ascending-by-score sort realises on input listed in
original order. -/
def scoreLex (u v : Nat × Nat) : Prop :=
  u.1 < v.1 ∨ (u.1 = v.1 ∧ u.2 < v.2)

theorem pairwise_scoreLex_insertSorted (a : Nat × Nat) (l : List (Nat × Nat))
    (hl : List.Pairwise scoreLex l) (hidx : ∀ x ∈ l, a.2 < x.2) :
    List.Pairwise scoreLex (insertSorted (fun p q => decide (p.1 < q.1)) a l) := by
  induction l with
  | nil => simp [insertSorted, List.pairwise_cons]
  | cons b bs ih =>
      rw [List.pairwise_cons] at hl
      simp only [insertSorted]
      split
      · rename_i hba
        rw [List.pairwise_cons]
        constructor
        · intro y hy
          rw [mem_insertSorted] at hy
          rcases hy with rfl | hy
          · exact Or.inl (of_decide_eq_true hba)
          · exact hl.1 y hy
        · exact ih hl.2 (fun x hx => hidx x (List.mem_cons_of_mem _ hx))
      · rename_i hba
        have hab : a.1 ≤ b.1 := le_of_not_lt (by simpa using hba)
        rw [List.pairwise_cons]
        constructor
        · intro y hy
          rcases List.mem_cons.mp hy with rfl | hy
          · rcases lt_or_eq_of_le hab with h | h
            · exact Or.inl h
            · exact Or.inr ⟨h, hidx y (List.mem_cons_self _ _)⟩
          · rcases hl.1 y hy with h | h
            · exact Or.inl (lt_of_le_of_lt hab h)
            · rcases lt_or_eq_of_le hab with h2 | h2
              · exact Or.inl (lt_of_lt_of_le h2 (le_of_eq h.1))
              · exact Or.inr ⟨h2.trans h.1, hidx y (List.mem_cons_of_mem _ hy)⟩
        · exact List.pairwise_cons.mpr hl

/-- A stable sort ascending by score, applied to a list whose second
components (original positions) strictly increase, produces a list sorted
lexicographically by (score, original position): ties keep original order. -/
theorem pairwise_scoreLex_stableSort (l : List (Nat × Nat))
    (h : List.Pairwise (fun u v => u.2 < v.2) l) :
    List.Pairwise scoreLex (stableSort (fun p q => decide (p.1 < q.1)) l) := by
  induction l with
  | nil => simp [stableSort]
  | cons a as ih =>
      rw [List.pairwise_cons] at h
      refine pairwise_scoreLex_insertSorted a _ (ih h.2) ?_
      intro x hx
      exact h.1 x ((mem_stableSort _ x as).mp hx)

/-- Inner structural recursion for `editDistance`: distance from `x :: xs`
(with `edTail = editDistance xs` and `xsLen = xs.length`) to the second
argument. -/
def editDistanceGo (edTail : List Char → Nat) (x : Char) (xsLen : Nat) :
    List Char → Nat
  | [] => xsLen + 1
  | y :: ys =>
      if x = y then edTail ys
      else
        1 + min (edTail (y :: ys))
              (min (editDistanceGo edTail x xsLen ys) (edTail ys))

/-- Modelled from the spec: `util::edit_distance` (in MAME's util library,
not under src/) — "compute edit distance (Levenshtein or equivalent)".
Standard Levenshtein distance on code-point sequences, written with
structural recursion. -/
def editDistance : List Char → List Char → Nat
  | [], b => b.length
  | x :: xs, b => editDistanceGo (editDistance xs) x xs.length b

theorem editDistance_self (xs : List Char) : editDistance xs xs = 0 := by
  induction xs with
  | nil => simp [editDistance]
  | cons x xs ih => simp [editDistance, editDistanceGo, ih]

/-- Modelled from the spec: `normalize_unicode(…, form D, fold = true)`
(unicode.h, not under src/).  The claims rely only on the query being
normalized "consistent with how cached fields were normalized", i.e. on
normalization being one fixed function of the input string applied to both
sides; it is modelled as the identity on the abstract string value. -/
def normalizeUnicode (s : String) : String :=
  s

/-- The subset of the five staged normalized-text fields whose availability
bits `populate_search` has observed set (its `m_searched_fields`). -/
structure SearchedFields where
  shortname : Bool
  description : Bool
  manufDesc : Bool
  dfltDesc : Bool
  manufDfltDesc : Bool
deriving DecidableEq

/-- The shortname comparison of `populate_search`: an assignment (not a
`min`) over the initial score 1.0, guarded by the shortname stage bit. -/
def matchShortname (fields : SearchedFields) (search : List Char)
    (sys : UiSystemInfo) : Nat :=
  if fields.shortname then editDistance search sys.ucs_shortname.toList else 1

/-- The reading comparisons of `populate_search`: guarded by a non-zero
current score and a non-empty cached reading; the manufacturer+reading
comparison is nested under a further non-zero check. -/
def matchReading (search : List Char) (sys : UiSystemInfo) (s : Nat) : Nat :=
  if s ≠ 0 ∧ sys.ucs_reading_description ≠ "" then
    let t := min (editDistance search sys.ucs_reading_description.toList) s
    if t ≠ 0 then
      min (editDistance search sys.ucs_manufacturer_reading_description.toList) t
    else t
  else s

/-- The description comparison of `populate_search`. -/
def matchDescription (fields : SearchedFields) (search : List Char)
    (sys : UiSystemInfo) (s : Nat) : Nat :=
  if s ≠ 0 ∧ fields.description then
    min (editDistance search sys.ucs_description.toList) s
  else s

/-- The manufacturer+description comparison of `populate_search`. -/
def matchManufDesc (fields : SearchedFields) (search : List Char)
    (sys : UiSystemInfo) (s : Nat) : Nat :=
  if s ≠ 0 ∧ fields.manufDesc then
    min (editDistance search sys.ucs_manufacturer_description.toList) s
  else s

/-- The default-description comparisons of `populate_search`, with the
manufacturer+default-description comparison nested under a further non-zero
check. -/
def matchDfltDesc (fields : SearchedFields) (search : List Char)
    (sys : UiSystemInfo) (s : Nat) : Nat :=
  if s ≠ 0 ∧ fields.dfltDesc ∧ sys.ucs_default_description ≠ "" then
    let t := min (editDistance search sys.ucs_default_description.toList) s
    if t ≠ 0 ∧ fields.manufDfltDesc then
      min (editDistance search sys.ucs_manufacturer_default_description.toList) t
    else t
  else s

/-- The complete per-entry score of `populate_search`: the field
comparisons applied in source order. -/
def scoreEntry (fields : SearchedFields) (search : List Char)
    (sys : UiSystemInfo) : Nat :=
  matchDfltDesc fields search sys
    (matchManufDesc fields search sys
      (matchDescription fields search sys
        (matchReading search sys (matchShortname fields search sys))))

/-- `menu_select_game::populate_search`: normalize the query, score every
entry of the sorted list, and stable-sort ascending by score.  The result
pairs each score with the entry's position in the sorted list. -/
def populateSearch (fields : SearchedFields) (searchText : String)
    (sorted : List UiSystemInfo) : List (Nat × Nat) :=
  stableSort (fun p q => decide (p.1 < q.1))
    (sorted.enum.map
      (fun p => (scoreEntry fields (normalizeUnicode searchText).toList p.2, p.1)))

/-! ### The staged cache state machine -/

/-- Bit assignments of `persistent_data::available`. -/
def AVAIL_SORTED_LIST : Nat := 1
def AVAIL_BIOS_COUNT : Nat := 2
def AVAIL_UCS_SHORTNAME : Nat := 4
def AVAIL_UCS_DESCRIPTION : Nat := 8
def AVAIL_UCS_MANUF_DESC : Nat := 16
def AVAIL_UCS_DFLT_DESC : Nat := 32
def AVAIL_UCS_MANUF_DFLT_DESC : Nat := 64
def AVAIL_FILTER_DATA : Nat := 128

/-- `persistent_data::is_available`: `(m_available & desired) == desired`. -/
def isAvailable (mask desired : Nat) : Bool :=
  decide ((mask &&& desired) = desired)

/-- Manufacturer and year accumulators of `machine_filter_data` (interface
only: `add_manufacturer` / `add_year` append, `finalise` sorts/dedups). -/
structure MachineFilterData where
  manufacturers : List String
  years : List String
deriving DecidableEq

def emptyFilterData : MachineFilterData := ⟨[], []⟩

/-- Modelled from the spec: `machine_filter_data::finalise` (ui/utils.cpp,
not under src/) sorts and dedups the accumulated manufacturer and year
lists. -/
def finaliseFilterData (f : MachineFilterData) : MachineFilterData :=
  ⟨(stableSort compareNames f.manufacturers).dedup,
   (stableSort compareNames f.years).dedup⟩

/-- The mutable state of `menu_select_game::persistent_data`.
`buildsSpawned` is the instrumentation counter of background build tasks
ever created (the spec's "instrumentable counter"); `threadActive` models
`m_thread` being non-null. -/
structure CacheState where
  started : Bool
  threadActive : Bool
  buildsSpawned : Nat
  m_available : Nat
  sorted_list : List UiSystemInfo
  filter_data : MachineFilterData
  bios_count : Nat
deriving DecidableEq

/-- State established by the private constructor. -/
def initialCacheState : CacheState :=
  ⟨false, false, 0, 0, [], emptyFilterData, 0⟩

/-- `driver_list::find(name)`: index of the catalog record with the given
shortname.  The real implementation is a binary search over the
shortname-sorted driver list; on such a list it agrees with this linear
scan. -/
def driverListFindDriver (catalog : List GameDriver) (name : String) :
    Option GameDriver :=
  catalog.find? (fun d => decide (d.name = name))

/-- Index of the placeholder `___empty` driver in the catalog
(`driver_list::find(GAME_NAME(___empty))`). -/
def placeholderIdx (catalog : List GameDriver) : Nat :=
  catalog.findIdx (fun d => decide (d.name = "___empty"))

/-- One entry constructed by `populate_list` for catalog position `x`: the
`ui_system_info(driver, x, false)` constructor plus the conditional clone /
parent / description initialisation.  The `(driver.parent[0] != '0') ||
driver.parent[1]` test is exactly `parent ≠ "0"`. -/
def populateListEntry (catalog : List GameDriver) (copydesc : Bool)
    (x : Nat) (d : GameDriver) : UiSystemInfo :=
  if d.name = "___empty" then { driver := d, index := x }
  else
    let withParent : UiSystemInfo :=
      if d.parent = "0" then { driver := d, index := x }
      else
        match driverListFindDriver catalog d.parent with
        | some pd =>
            if copydesc then
              { driver := d, index := x, is_clone := !pd.isBiosRoot,
                parent := pd.fullname }
            else
              { driver := d, index := x, is_clone := !pd.isBiosRoot }
        | none =>
            if copydesc then
              { driver := d, index := x, is_clone := false, parent := d.parent }
            else
              { driver := d, index := x, is_clone := false }
    if copydesc then { withParent with description := d.fullname } else withParent

/-- The list built by `populate_list`, in catalog (shortname) order. -/
def catalogInfos (catalog : List GameDriver) (copydesc : Bool) :
    List UiSystemInfo :=
  catalog.enum.map (fun p => populateListEntry catalog copydesc p.1 p.2)

/-- BIOS-root records tallied by `populate_list` (placeholder excluded). -/
def catalogBiosCount (catalog : List GameDriver) : Nat :=
  (catalog.filter (fun d => decide (d.name ≠ "___empty") && d.isBiosRoot)).length

def catalogManufacturers (catalog : List GameDriver) : List String :=
  (catalog.filter (fun d => decide (d.name ≠ "___empty"))).map (fun d => d.manufacturer)

def catalogYears (catalog : List GameDriver) : List String :=
  (catalog.filter (fun d => decide (d.name ≠ "___empty"))).map (fun d => d.year)

/-- `persistent_data::populate_list`: appends one entry per catalog record
to `m_sorted_list`, tallies the BIOS count and records filter data. -/
def populateList (catalog : List GameDriver) (copydesc : Bool)
    (s : CacheState) : CacheState :=
  { s with
    sorted_list := s.sorted_list ++ catalogInfos catalog copydesc,
    bios_count := s.bios_count + catalogBiosCount catalog,
    filter_data :=
      ⟨s.filter_data.manufacturers ++ catalogManufacturers catalog,
       s.filter_data.years ++ catalogYears catalog⟩ }

/-! ### Title overlay loader -/

/-- Warnings emitted by `load_titles` via `osd_printf_warning`. -/
inductive TitleWarning
  | emptyDescription (shortname : String)
  | multipleDescriptions (shortname old new : String)
  | emptyReading (shortname : String)
deriving DecidableEq

/-- The whitespace characters trimmed by `strtrimspace` (C `isspace`). -/
def isSpaceChar (c : Char) : Bool :=
  decide (c = ' ' ∨ c = '\t' ∨ c = '\n' ∨ c = Char.ofNat 11 ∨ c = Char.ofNat 12 ∨ c = '\r')

/-- `strtrimspace` (corestr.h, not under src/): strip leading and trailing
whitespace. -/
def trimChars (l : List Char) : List Char :=
  ((l.dropWhile isSpaceChar).reverse.dropWhile isSpaceChar).reverse

/-- The portion of an overlay line before the terminator: the scan for the
first NUL, `'\n'` or `'\r'` character. -/
def lineContent (line : String) : List Char :=
  line.toList.takeWhile (fun c => decide (c ≠ Char.ofNat 0 ∧ c ≠ '\n' ∧ c ≠ '\r'))

/-- Field split of one overlay line: `none` when no tab occurs before the
line terminator (the skip case); otherwise the shortname, the trimmed
description, and, when a second tab is present, the trimmed reading.
`strtrimspace` is modelled by `String.trim`. -/
def lineFields (line : String) : Option (String × String × Option String) :=
  let content := lineContent line
  let sn := content.takeWhile (fun c => decide (c ≠ '\t'))
  if sn.length = content.length then none
  else
    let rest1 := content.drop (sn.length + 1)
    let descRaw := rest1.takeWhile (fun c => decide (c ≠ '\t'))
    let reading :=
      if descRaw.length = rest1.length then none
      else
        let rest2 := rest1.drop (descRaw.length + 1)
        some (String.mk (trimChars (rest2.takeWhile (fun c => decide (c ≠ '\t')))))
    some (String.mk sn, String.mk (trimChars descRaw), reading)

/-- `std::lower_bound` over the still-shortname-ordered list with the
comparator `a.driver->name < b`: on a range partitioned by that predicate
(in particular on a shortname-sorted list) it returns the first position
whose shortname is not less than the key, or the end position (here:
`l.length`).  Modelled as a linear scan, which agrees with the binary
search on partitioned input. -/
def lowerBoundIdx (l : List UiSystemInfo) (key : String) : Nat :=
  l.findIdx (fun a => !(compareNames a.driver.name key))

/-- The description part of `load_titles` line processing: fill the slot
when the trimmed description is non-empty and the slot is still empty,
warning (and leaving the slot alone) otherwise. -/
def applyDescriptionField (sn desc : String) (i : Nat)
    (found : UiSystemInfo) (l : List UiSystemInfo) :
    List UiSystemInfo × List TitleWarning :=
  if desc = "" then (l, [TitleWarning.emptyDescription sn])
  else if found.description ≠ "" then
    (l, [TitleWarning.multipleDescriptions sn found.description desc])
  else (l.set i { found with description := desc }, [])

/-- The reading part of `load_titles` line processing: when a reading field
is present and non-empty after trimming, fill the reading and its two
normalized forms on the (possibly already description-updated) record. -/
def applyReadingField (sn : String) (i : Nat) (reading : Option String)
    (st : List UiSystemInfo × List TitleWarning) :
    List UiSystemInfo × List TitleWarning :=
  match reading with
  | none => st
  | some r =>
      if r = "" then (st.1, st.2 ++ [TitleWarning.emptyReading sn])
      else
        match st.1[i]? with
        | none => st
        | some f1 =>
            (st.1.set i
              { f1 with
                reading_description := r,
                ucs_reading_description := normalizeUnicode r,
                ucs_manufacturer_reading_description :=
                  normalizeUnicode (f1.driver.manufacturer ++ " " ++ r) },
             st.2)

/-- Processing of one parsed overlay line: look up the shortname with
`lower_bound`, skip on no match or shortname mismatch, else fill the
description and reading fields. -/
def applyParsedLine (l : List UiSystemInfo) :
    Option (String × String × Option String) →
      List UiSystemInfo × List TitleWarning
  | none => (l, [])
  | some (sn, desc, reading) =>
      match l[lowerBoundIdx l sn]? with
      | none => (l, [])
      | some found =>
          if found.driver.name ≠ sn then (l, [])
          else
            applyReadingField sn (lowerBoundIdx l sn) reading
              (applyDescriptionField sn desc (lowerBoundIdx l sn) found l)

/-- Processing of a single overlay line by `load_titles`: parse, look up the
shortname, then conditionally fill the description (warning on an empty or
duplicate description) and the reading fields. -/
def applyTitleLine (l : List UiSystemInfo) (line : String) :
    List UiSystemInfo × List TitleWarning :=
  applyParsedLine l (lineFields line)

/-- The line loop of `load_titles`. -/
def loadTitlesLines (lines : List String) (l : List UiSystemInfo) :
    List UiSystemInfo × List TitleWarning :=
  lines.foldl
    (fun acc line =>
      let r := applyTitleLine acc.1 line
      (r.1, acc.2 ++ r.2))
    (l, [])

/-- The back-fill at the end of `load_titles`: an entry whose description is
still empty gets the catalog's own full name. -/
def backfillDescription (i : UiSystemInfo) : UiSystemInfo :=
  if i.description = "" then { i with description := i.driver.fullname } else i

/-- `persistent_data::load_titles`: the line loop followed by the
description back-fill. -/
def loadTitles (lines : List String) (l : List UiSystemInfo) :
    List UiSystemInfo × List TitleWarning :=
  let r := loadTitlesLines lines l
  (r.1.map backfillDescription, r.2)

/-- The per-entry step of `populate_parents`: for an entry with a
non-trivial parent field, look up the parent shortname with `lower_bound`
and copy the description and reading of whatever entry that returns —
without an exact-match check — falling back to the raw parent shortname
only at the end position. -/
def parentLookup (l : List UiSystemInfo) (info : UiSystemInfo) : UiSystemInfo :=
  if info.driver.parent = "0" then info
  else
    match l[lowerBoundIdx l info.driver.parent]? with
    | some found =>
        { info with
          parent := found.description,
          reading_parent := found.reading_description }
    | none => { info with parent := info.driver.parent }

/-- `persistent_data::populate_parents` updates the `parent` and
`reading_parent` fields of each entry in place; since the pass never
modifies the `description` / `reading_description` fields it reads, the
in-place loop is equivalent to this map over the unmodified list. -/
def populateParents (l : List UiSystemInfo) : List UiSystemInfo :=
  l.map (parentLookup l)

/-! ### The build pipeline -/

/-- Input to one build: the catalog snapshot, whether a titles file was
requested and opened (`try_titles`), and its lines. -/
structure BuildInput where
  catalog : List GameDriver
  tryTitles : Bool
  titleLines : List String
deriving DecidableEq

/-- `persistent_data::notify_available`: OR the bit into the mask (and
notify the condition variable). -/
def notifyAvailable (v : Nat) (s : CacheState) : CacheState :=
  { s with m_available := s.m_available ||| v }

/-- `notify_available` threaded through the build pipeline together with
the trace of published stage bits, in publication order. -/
def notifyAvailableT (v : Nat) (st : CacheState × List Nat) :
    CacheState × List Nat :=
  (notifyAvailable v st.1, st.2 ++ [v])

/-- The five normalized-form passes of `do_cache_data`. -/
def setUcsShortname (i : UiSystemInfo) : UiSystemInfo :=
  { i with ucs_shortname := normalizeUnicode i.driver.name }

def setUcsDescription (i : UiSystemInfo) : UiSystemInfo :=
  { i with ucs_description := normalizeUnicode i.description }

def setUcsManufDesc (i : UiSystemInfo) : UiSystemInfo :=
  { i with ucs_manufacturer_description :=
      normalizeUnicode (i.driver.manufacturer ++ " " ++ i.description) }

def setUcsDfltDesc (tryTitles : Bool) (i : UiSystemInfo) : UiSystemInfo :=
  if tryTitles ∧ i.description ≠ i.driver.fullname then
    { i with ucs_default_description := normalizeUnicode i.driver.fullname }
  else i

def setUcsManufDfltDesc (tryTitles : Bool) (i : UiSystemInfo) : UiSystemInfo :=
  if tryTitles ∧ i.description ≠ i.driver.fullname then
    { i with ucs_manufacturer_default_description :=
        normalizeUnicode (i.driver.manufacturer ++ " " ++ i.driver.fullname) }
  else i

/-- `persistent_data::do_cache_data`: the complete background build
pipeline, returning the final state and the trace of published stage bits
in publication order. -/
def doCacheData (input : BuildInput) (s : CacheState) : CacheState × List Nat :=
  let s1 := populateList input.catalog (!input.tryTitles) s
  let t2 := notifyAvailableT AVAIL_BIOS_COUNT (s1, [])
  let s3 :=
    if input.tryTitles then
      { t2.1 with sorted_list :=
          populateParents (loadTitles input.titleLines t2.1.sorted_list).1 }
    else t2.1
  let erased := s3.sorted_list.eraseIdx (placeholderIdx input.catalog)
  let s4 := { s3 with sorted_list := stableSort sortCompare erased }
  let t5 := notifyAvailableT AVAIL_SORTED_LIST (s4, t2.2)
  let s6 := { t5.1 with filter_data := finaliseFilterData t5.1.filter_data }
  let t7 := notifyAvailableT AVAIL_FILTER_DATA (s6, t5.2)
  let t8 := notifyAvailableT AVAIL_UCS_SHORTNAME
    ({ t7.1 with sorted_list := t7.1.sorted_list.map setUcsShortname }, t7.2)
  let t9 := notifyAvailableT AVAIL_UCS_DESCRIPTION
    ({ t8.1 with sorted_list := t8.1.sorted_list.map setUcsDescription }, t8.2)
  let t10 := notifyAvailableT AVAIL_UCS_MANUF_DESC
    ({ t9.1 with sorted_list := t9.1.sorted_list.map setUcsManufDesc }, t9.2)
  let t11 := notifyAvailableT AVAIL_UCS_DFLT_DESC
    ({ t10.1 with sorted_list :=
        t10.1.sorted_list.map (setUcsDfltDesc input.tryTitles) }, t10.2)
  notifyAvailableT AVAIL_UCS_MANUF_DFLT_DESC
    ({ t11.1 with sorted_list :=
        t11.1.sorted_list.map (setUcsManufDfltDesc input.tryTitles) }, t11.2)

/-- The background task body spawned by `cache_data`. -/
def runBuild (input : BuildInput) (s : CacheState) : CacheState :=
  (doCacheData input s).1

/-- `persistent_data::cache_data` (`begin_build`): under the mutex, if a
build has already been started this is a no-op; otherwise mark the build
started and spawn the (here: run to completion) background task. -/
def cacheData (input : BuildInput) (s : CacheState) : CacheState :=
  if s.started then s
  else
    runBuild input
      { s with started := true, threadActive := true,
               buildsSpawned := s.buildsSpawned + 1 }

/-- `persistent_data::reset_cache`: join the thread, then clear the thread,
the started flag, the availability mask and all derived storage. -/
def resetCache (s : CacheState) : CacheState :=
  { s with
    threadActive := false,
    started := false,
    m_available := 0,
    sorted_list := [],
    filter_data := emptyFilterData,
    bios_count := 0 }

/-- The state-changing operations on the cache, serialised by the mutex. -/
inductive CacheOp
  | build (input : BuildInput)
  | reset
  | notify (v : Nat)
deriving DecidableEq

def stepOp : CacheOp → CacheState → CacheState
  | CacheOp.build input, s => cacheData input s
  | CacheOp.reset, s => resetCache s
  | CacheOp.notify v, s => notifyAvailable v s

theorem lexLt_irrefl (a : List Char) : lexLt a a = false := by
  induction a with
  | nil => rfl
  | cons x xs ih => simp [lexLt, ih]

theorem lexLt_asymm (a b : List Char)
    (h : lexLt a b = true) : lexLt b a = false := by
  induction a generalizing b with
  | nil =>
      cases b with
      | nil => cases h
      | cons y ys => rfl
  | cons x xs ih =>
      cases b with
      | nil => cases h
      | cons y ys =>
          simp only [lexLt] at h ⊢
          by_cases hxy : x < y
          · have hyx : ¬ y < x := lt_asymm hxy
            rw [if_pos hxy] at h
            rw [if_neg hyx, if_pos hxy]
          · rw [if_neg hxy] at h
            by_cases hyx : y < x
            · rw [if_pos hyx] at h
              cases h
            · rw [if_neg hyx] at h
              rw [if_neg hyx, if_neg hxy]
              exact ih ys h

/-- `compareNames` is asymmetric. -/
theorem compareNames_asymm (x y : String)
    (h : compareNames x y = true) : compareNames y x = false :=
  lexLt_asymm x.data y.data h

/-- The stable-sort comparator of `do_cache_data` is asymmetric, hence a
strict comparison suitable for `std::stable_sort`. -/
theorem sortCompare_asymm (a b : UiSystemInfo)
    (h : sortCompare a b = true) : sortCompare b a = false := by
  unfold sortCompare at h ⊢
  cases ha : a.is_clone <;> cases hb : b.is_clone <;>
    simp only [ha, hb] at h ⊢
  · exact compareNames_asymm _ _ h
  · by_cases hp : a.driver.name = b.driver.parent
    · rw [if_pos hp.symm]
    · rw [if_neg hp] at h
      rw [if_neg (fun hh => hp hh.symm)]
      exact compareNames_asymm _ _ h
  · by_cases hp : a.driver.parent = b.driver.name
    · rw [if_pos hp] at h
      cases h
    · rw [if_neg hp] at h
      rw [if_neg (fun hh => hp hh.symm)]
      exact compareNames_asymm _ _ h
  · by_cases hp : a.driver.parent = b.driver.parent
    · rw [if_pos hp] at h
      rw [if_pos hp.symm]
      exact compareNames_asymm _ _ h
    · rw [if_neg hp] at h
      rw [if_neg (fun hh => hp hh.symm)]
      exact compareNames_asymm _ _ h

/-! ### Shared helper lemmas and concrete fixtures -/

/-- The projection of an entry the sort comparator depends on. -/
def sortKey (i : UiSystemInfo) :
    Bool × String × String × String × String × String × String :=
  (i.is_clone, i.driver.name, i.driver.parent, i.description, i.parent,
   i.reading_description, i.reading_parent)

theorem sortCompare_eq_of_sortKey {a a' b b' : UiSystemInfo}
    (ha : sortKey a' = sortKey a) (hb : sortKey b' = sortKey b) :
    sortCompare a' b' = sortCompare a b := by
  simp only [sortKey, Prod.mk.injEq] at ha hb
  obtain ⟨ha1, ha2, ha3, ha4, ha5, ha6, ha7⟩ := ha
  obtain ⟨hb1, hb2, hb3, hb4, hb5, hb6, hb7⟩ := hb
  unfold sortCompare displayDescription displayParent
  rw [ha1, hb1, ha2, ha3, ha4, ha5, ha6, ha7, hb2, hb3, hb4, hb5, hb6, hb7]

theorem sortKey_setUcsShortname (i : UiSystemInfo) :
    sortKey (setUcsShortname i) = sortKey i := rfl

theorem sortKey_setUcsDescription (i : UiSystemInfo) :
    sortKey (setUcsDescription i) = sortKey i := rfl

theorem sortKey_setUcsManufDesc (i : UiSystemInfo) :
    sortKey (setUcsManufDesc i) = sortKey i := rfl

theorem sortKey_setUcsDfltDesc (t : Bool) (i : UiSystemInfo) :
    sortKey (setUcsDfltDesc t i) = sortKey i := by
  unfold setUcsDfltDesc
  split <;> rfl

theorem sortKey_setUcsManufDfltDesc (t : Bool) (i : UiSystemInfo) :
    sortKey (setUcsManufDfltDesc t i) = sortKey i := by
  unfold setUcsManufDfltDesc
  split <;> rfl

/-- Transport of the adjacent-order property through a map that does not
touch the fields the comparator reads. -/
theorem chain'_sortCompare_map (f : UiSystemInfo → UiSystemInfo)
    (hf : ∀ i, sortKey (f i) = sortKey i) (l : List UiSystemInfo)
    (h : List.Chain' (fun a b => sortCompare b a = false) l) :
    List.Chain' (fun a b => sortCompare b a = false) (l.map f) := by
  rw [List.chain'_map]
  refine h.imp ?_
  intro a b hab
  rw [sortCompare_eq_of_sortKey (hf b) (hf a)]
  exact hab

/-- A bit combination that is available stays available after ORing more
bits into the mask. -/
theorem isAvailable_or (m v d : Nat) (h : isAvailable m d = true) :
    isAvailable (m ||| v) d = true := by
  simp only [isAvailable, decide_eq_true_eq] at h ⊢
  apply Nat.eq_of_testBit_eq
  intro i
  have hb := congrArg (fun n => n.testBit i) h
  simp only [Nat.testBit_and] at hb
  simp only [Nat.testBit_and, Nat.testBit_or]
  cases hd : d.testBit i
  · simp
  · rw [hd] at hb
    simp only [Bool.and_true] at hb
    simp [hb]

/-- Concrete fixture: placeholder plus three records, in shortname order.
`bgame` displays as "Alpha", its clone `bgametwo` as "Alpha Two", and
`agame` as "Beta", so display order differs from shortname order. -/
def emptyD : GameDriver := ⟨"___empty", "0", "", "", "", false⟩

def alphaD : GameDriver := ⟨"bgame", "0", "Alpha", "M", "1990", false⟩

def alphaTwoD : GameDriver := ⟨"bgametwo", "bgame", "Alpha Two", "M", "1991", false⟩

def betaD : GameDriver := ⟨"agame", "0", "Beta", "M", "1992", false⟩

def exCatalog : List GameDriver := [emptyD, betaD, alphaD, alphaTwoD]

def exInput : BuildInput := ⟨exCatalog, false, []⟩

/-- Concrete non-clone record A = "Alpha". -/
def infoAlpha : UiSystemInfo := { driver := alphaD, index := 2 }

/-- Concrete clone record B with parent A and own name "Alpha Two". -/
def infoAlphaTwo : UiSystemInfo :=
  { driver := alphaTwoD, index := 3, is_clone := true }

/-- Concrete catalog record for the title-overlay claims. -/
def fooD : GameDriver := ⟨"foo", "0", "Foo Fullname", "Man", "1990", false⟩

/-- The `foo` record as `populate_list` leaves it before `load_titles`. -/
def fooInfo : UiSystemInfo := { driver := fooD, index := 0 }

/-! ### Claim C1 -/

/-- C1: the final sort's comparator implements the clone-aware four-way
case split on locale-collated display names (reading if present, else
description): two non-clones compare display names; two clones compare own
display names when they share a parent and parent display names otherwise;
a clone whose parent equals a non-clone record compares after it in both
directions, and otherwise the clone's parent display name is compared
against the non-clone's display name.  On the concrete catalog (non-clone
A = "Alpha", clone B of A named "Alpha Two", independent non-clone
C = "Beta") the build pipeline produces sorted order A, B, C. -/
theorem final_sort_clone_aware :
    (∀ a b : UiSystemInfo, a.is_clone = false → b.is_clone = false →
        sortCompare a b =
          compareNames (displayDescription a) (displayDescription b)) ∧
    (∀ a b : UiSystemInfo, a.is_clone = true → b.is_clone = true →
        sortCompare a b =
          (if a.driver.parent = b.driver.parent then
            compareNames (displayDescription a) (displayDescription b)
          else compareNames (displayParent a) (displayParent b))) ∧
    (∀ a b : UiSystemInfo, a.is_clone = false → b.is_clone = true →
        b.driver.parent = a.driver.name →
        sortCompare a b = true ∧ sortCompare b a = false) ∧
    (∀ a b : UiSystemInfo, a.is_clone = false → b.is_clone = true →
        b.driver.parent ≠ a.driver.name →
        sortCompare a b = compareNames (displayDescription a) (displayParent b) ∧
        sortCompare b a = compareNames (displayParent b) (displayDescription a)) ∧
    (doCacheData exInput initialCacheState).1.sorted_list.map
        (fun i => i.driver.name) = ["bgame", "bgametwo", "agame"] := by
  refine ⟨?_, ?_, ?_, ?_, by decide⟩
  · intro a b ha hb
    unfold sortCompare
    rw [ha, hb]
  · intro a b ha hb
    unfold sortCompare
    rw [ha, hb]
  · intro a b ha hb hp
    constructor
    · unfold sortCompare
      rw [ha, hb]
      exact if_pos hp.symm
    · unfold sortCompare
      rw [hb, ha]
      exact if_pos hp
  · intro a b ha hb hp
    constructor
    · unfold sortCompare
      rw [ha, hb]
      exact if_neg (fun hh => hp hh.symm)
    · unfold sortCompare
      rw [hb, ha]
      exact if_neg hp

/-- Witness for C1: the non-clone "Alpha" record and its clone compare as
parent-before-clone in both directions. -/
theorem final_sort_clone_aware_witness :
    sortCompare infoAlpha infoAlphaTwo = true ∧
    sortCompare infoAlphaTwo infoAlpha = false :=
  final_sort_clone_aware.2.2.1 infoAlpha infoAlphaTwo rfl rfl rfl

/-! ### Claim C5 -/

theorem doCacheData_sorted_list_noTitles (input : BuildInput) (s : CacheState)
    (hnt : input.tryTitles = false) :
    (doCacheData input s).1.sorted_list =
      (((((stableSort sortCompare
            ((s.sorted_list ++ catalogInfos input.catalog true).eraseIdx
              (placeholderIdx input.catalog))).map setUcsShortname).map
          setUcsDescription).map setUcsManufDesc).map
        (setUcsDfltDesc false)).map (setUcsManufDfltDesc false) := by
  simp only [doCacheData, notifyAvailableT, notifyAvailable, populateList, hnt,
    Bool.not_false, Bool.false_eq_true, if_false]

/-- C5: a build without an overlay file, over a catalog containing the
placeholder record, yields a sorted list with exactly one entry per
non-placeholder catalog record, and no adjacent pair of the list violates
the sort comparator. -/
theorem sorted_list_count_and_order (input : BuildInput)
    (hnt : input.tryTitles = false)
    (hph : ∃ d ∈ input.catalog, d.name = "___empty") :
    (doCacheData input initialCacheState).1.sorted_list.length =
      input.catalog.length - 1 ∧
    List.Chain' (fun a b => sortCompare b a = false)
      (doCacheData input initialCacheState).1.sorted_list := by
  have hformula := doCacheData_sorted_list_noTitles input initialCacheState hnt
  have hidx : placeholderIdx input.catalog < input.catalog.length := by
    obtain ⟨d, hd, hn⟩ := hph
    apply List.findIdx_lt_length_of_exists
    exact ⟨d, hd, by simp [hn]⟩
  constructor
  · rw [hformula]
    simp only [List.length_map, length_stableSort, List.length_eraseIdx]
    have hinit : initialCacheState.sorted_list = [] := rfl
    rw [hinit, List.nil_append]
    have hlen : (catalogInfos input.catalog true).length = input.catalog.length := by
      simp [catalogInfos, List.enum_length]
    rw [hlen, if_pos hidx]
  · rw [hformula]
    apply chain'_sortCompare_map _ (sortKey_setUcsManufDfltDesc false)
    apply chain'_sortCompare_map _ (sortKey_setUcsDfltDesc false)
    apply chain'_sortCompare_map _ sortKey_setUcsManufDesc
    apply chain'_sortCompare_map _ sortKey_setUcsDescription
    apply chain'_sortCompare_map _ sortKey_setUcsShortname
    exact chain'_stableSort sortCompare sortCompare_asymm _

/-- Witness for C5 at the concrete four-record catalog. -/
theorem sorted_list_count_and_order_witness :
    (doCacheData exInput initialCacheState).1.sorted_list.length =
      exCatalog.length - 1 ∧
    List.Chain' (fun a b => sortCompare b a = false)
      (doCacheData exInput initialCacheState).1.sorted_list :=
  sorted_list_count_and_order exInput rfl ⟨emptyD, by decide, rfl⟩

/-! ### Claim C2 -/

theorem pairwise_fst_lt_enum (l : List α) :
    List.Pairwise (fun p q : Nat × α => p.1 < q.1) l.enum := by
  rw [List.pairwise_iff_getElem]
  intro i j hi hj hij
  rw [List.getElem_enum, List.getElem_enum]
  exact hij

theorem matchReading_zero (q : List Char) (y : UiSystemInfo) :
    matchReading q y 0 = 0 := by
  simp [matchReading]

theorem matchDescription_zero (f : SearchedFields) (q : List Char)
    (y : UiSystemInfo) : matchDescription f q y 0 = 0 := by
  simp [matchDescription]

theorem matchManufDesc_zero (f : SearchedFields) (q : List Char)
    (y : UiSystemInfo) : matchManufDesc f q y 0 = 0 := by
  simp [matchManufDesc]

theorem matchDfltDesc_zero (f : SearchedFields) (q : List Char)
    (y : UiSystemInfo) : matchDfltDesc f q y 0 = 0 := by
  simp [matchDfltDesc]

/-- C2: once a score of 0 is reached every later field comparison leaves it
at 0; each field comparison never increases the score (a later field's
distance replaces the current score only when strictly lower, witnessed
exactly for the description field); a query equal to an entry's cached
normalized shortname scores 0 when the shortname stage has been observed;
and the ranked output is sorted ascending by score with ties in original
sorted-list order. -/
theorem search_ranker_properties :
    (∀ (q : List Char) (y : UiSystemInfo) (f : SearchedFields),
        matchReading q y 0 = 0 ∧ matchDescription f q y 0 = 0 ∧
        matchManufDesc f q y 0 = 0 ∧ matchDfltDesc f q y 0 = 0) ∧
    (∀ (f : SearchedFields) (q : List Char) (y : UiSystemInfo) (s : Nat),
        matchReading q y s ≤ s ∧ matchDescription f q y s ≤ s ∧
        matchManufDesc f q y s ≤ s ∧ matchDfltDesc f q y s ≤ s) ∧
    (∀ (f : SearchedFields) (q : List Char) (y : UiSystemInfo) (s : Nat),
        s ≠ 0 → f.description = true →
        matchDescription f q y s =
          (if editDistance q y.ucs_description.toList < s
           then editDistance q y.ucs_description.toList else s)) ∧
    (∀ (f : SearchedFields) (y : UiSystemInfo), f.shortname = true →
        ∀ q : List Char, q = y.ucs_shortname.toList → scoreEntry f q y = 0) ∧
    (∀ (f : SearchedFields) (txt : String) (sorted : List UiSystemInfo),
        List.Pairwise scoreLex (populateSearch f txt sorted)) := by
  refine ⟨?_, ?_, ?_, ?_, ?_⟩
  · intro q y f
    exact ⟨matchReading_zero q y, matchDescription_zero f q y,
      matchManufDesc_zero f q y, matchDfltDesc_zero f q y⟩
  · intro f q y s
    refine ⟨?_, ?_, ?_, ?_⟩
    · simp only [matchReading]
      split_ifs <;> omega
    · simp only [matchDescription]
      split_ifs <;> omega
    · simp only [matchManufDesc]
      split_ifs <;> omega
    · simp only [matchDfltDesc]
      split_ifs <;> omega
  · intro f q y s hs hd
    simp only [matchDescription, hs, hd, ne_eq, not_false_eq_true, and_self,
      if_true]
    rw [Nat.min_def]
    split_ifs <;> omega
  · intro f y hf q hq
    have h1 : matchShortname f q y = 0 := by
      simp [matchShortname, hf, hq, String.toList, editDistance_self]
    unfold scoreEntry
    rw [h1, matchReading_zero, matchDescription_zero, matchManufDesc_zero,
      matchDfltDesc_zero]
  · intro f txt sorted
    unfold populateSearch
    apply pairwise_scoreLex_stableSort
    apply List.Pairwise.map _ _ (pairwise_fst_lt_enum sorted)
    intro a b hab
    exact hab

/-- Concrete cached entry for the C2 witness. -/
def infoSearch : UiSystemInfo :=
  { driver := alphaD, index := 0, ucs_shortname := "bgame",
    ucs_description := "Alpha" }

/-- Witness for C2: an exact shortname query scores 0, and the description
comparison follows the replace-only-if-strictly-lower equation. -/
theorem search_ranker_properties_witness :
    scoreEntry ⟨true, true, true, true, true⟩ "bgame".toList infoSearch = 0 ∧
    matchDescription ⟨true, true, true, true, true⟩ "q".toList infoSearch 5 =
      (if editDistance "q".toList infoSearch.ucs_description.toList < 5
       then editDistance "q".toList infoSearch.ucs_description.toList else 5) :=
  ⟨search_ranker_properties.2.2.2.1 _ infoSearch rfl _ rfl,
   search_ranker_properties.2.2.1 _ _ infoSearch 5 (by decide) rfl⟩

/-! ### Claims C3, C4, C8, C9 -/

theorem runBuild_started (input : BuildInput) (s : CacheState) :
    (runBuild input s).started = s.started := by
  simp only [runBuild, doCacheData, notifyAvailableT, notifyAvailable,
    populateList]
  by_cases ht : input.tryTitles <;> simp [ht]

theorem runBuild_buildsSpawned (input : BuildInput) (s : CacheState) :
    (runBuild input s).buildsSpawned = s.buildsSpawned := by
  simp only [runBuild, doCacheData, notifyAvailableT, notifyAvailable,
    populateList]
  by_cases ht : input.tryTitles <;> simp [ht]

theorem runBuild_m_available (input : BuildInput) (s : CacheState) :
    (runBuild input s).m_available =
      s.m_available ||| AVAIL_BIOS_COUNT ||| AVAIL_SORTED_LIST |||
        AVAIL_FILTER_DATA ||| AVAIL_UCS_SHORTNAME ||| AVAIL_UCS_DESCRIPTION |||
        AVAIL_UCS_MANUF_DESC ||| AVAIL_UCS_DFLT_DESC |||
        AVAIL_UCS_MANUF_DFLT_DESC := by
  simp only [runBuild, doCacheData, notifyAvailableT, notifyAvailable,
    populateList]
  by_cases ht : input.tryTitles <;> simp [ht]

/-- Serialized sequence of `n` `cache_data` calls. -/
def iterateCacheData (input : BuildInput) : Nat → CacheState → CacheState
  | 0, s => s
  | n + 1, s => iterateCacheData input n (cacheData input s)

theorem cacheData_started (input : BuildInput) (s : CacheState) :
    (cacheData input s).started = true := by
  unfold cacheData
  split
  · assumption
  · rw [runBuild_started]

theorem cacheData_of_started (input : BuildInput) (s : CacheState)
    (h : s.started = true) : cacheData input s = s := by
  unfold cacheData
  rw [if_pos h]

theorem iterate_eq_cacheData (input : BuildInput) (n : Nat) (s : CacheState) :
    iterateCacheData input (n + 1) s = cacheData input s := by
  induction n generalizing s with
  | zero => rfl
  | succ n ih =>
      show iterateCacheData input (n + 1) (cacheData input s) = cacheData input s
      rw [ih, cacheData_of_started input _ (cacheData_started input s)]

theorem cacheData_buildsSpawned (input : BuildInput) (s : CacheState) :
    (cacheData input s).buildsSpawned =
      s.buildsSpawned + (if s.started then 0 else 1) := by
  unfold cacheData
  split
  · simp
  · rw [runBuild_buildsSpawned]

/-- C3: `cache_data` is idempotent within one cache lifetime — a call on a
started cache is a no-op that changes no state, any serialized sequence of
`n ≥ 1` calls has the effect of exactly one call, and the number of
background build tasks ever created grows by exactly one when the cache was
fresh and by zero otherwise. -/
theorem cache_data_idempotent (input : BuildInput) (s : CacheState) (n : Nat)
    (hn : 1 ≤ n) :
    (s.started = true → cacheData input s = s) ∧
    iterateCacheData input n s = cacheData input s ∧
    (iterateCacheData input n s).buildsSpawned =
      s.buildsSpawned + (if s.started then 0 else 1) := by
  obtain ⟨m, rfl⟩ : ∃ m, n = m + 1 := ⟨n - 1, by omega⟩
  refine ⟨cacheData_of_started input s, iterate_eq_cacheData input m s, ?_⟩
  rw [iterate_eq_cacheData, cacheData_buildsSpawned]

/-- Witness for C3: three serialized calls on a fresh cache equal one call
and create exactly one build task. -/
theorem cache_data_idempotent_witness :
    iterateCacheData exInput 3 initialCacheState =
      cacheData exInput initialCacheState ∧
    (iterateCacheData exInput 3 initialCacheState).buildsSpawned = 1 := by
  refine ⟨(cache_data_idempotent exInput initialCacheState 3 (by decide)).2.1, ?_⟩
  rw [(cache_data_idempotent exInput initialCacheState 3 (by decide)).2.2]
  decide

/-- C4: a stage combination observed available stays available across every
cache operation other than `reset_cache`. -/
theorem stage_monotonic (ops : List CacheOp) (s : CacheState) (d : Nat)
    (hops : ∀ op ∈ ops, op ≠ CacheOp.reset)
    (h : isAvailable s.m_available d = true) :
    isAvailable (ops.foldl (fun t op => stepOp op t) s).m_available d = true := by
  induction ops generalizing s with
  | nil => simpa using h
  | cons op ops ih =>
      rw [List.foldl_cons]
      apply ih _ (fun o ho => hops o (List.mem_cons_of_mem _ ho))
      cases op with
      | build input =>
          simp only [stepOp]
          unfold cacheData
          split
          · exact h
          · rw [runBuild_m_available]
            exact isAvailable_or _ _ _ (isAvailable_or _ _ _ (isAvailable_or _ _ _
              (isAvailable_or _ _ _ (isAvailable_or _ _ _ (isAvailable_or _ _ _
                (isAvailable_or _ _ _ (isAvailable_or _ _ _ h)))))))
      | reset => exact absurd rfl (hops _ (List.mem_cons_self _ _))
      | notify v =>
          simp only [stepOp, notifyAvailable]
          exact isAvailable_or _ _ _ h

/-- Witness for C4: the sorted-list bit stays set across a notify and a
build. -/
theorem stage_monotonic_witness :
    isAvailable (([CacheOp.notify AVAIL_BIOS_COUNT, CacheOp.build exInput].foldl
        (fun t op => stepOp op t)
        (notifyAvailable AVAIL_SORTED_LIST initialCacheState)).m_available)
      AVAIL_SORTED_LIST = true :=
  stage_monotonic _ _ _ (by decide) (by decide)

/-- The availability mask resulting from the first `k` published stage bits
of a build trace, starting from the empty mask. -/
def pipelineMaskAfter (ev : List Nat) (k : Nat) : Nat :=
  (ev.take k).foldl (fun m v => m ||| v) 0

/-- C8: every build publishes the stage bits in the fixed pipeline order —
BIOS count, sorted list, filter data, then the five normalized-form stages
in source order — and therefore after any prefix of the publications a
later stage's bit is never set while an earlier stage's bit is clear. -/
theorem stage_publication_order (input : BuildInput) (s : CacheState) :
    (doCacheData input s).2 =
      [AVAIL_BIOS_COUNT, AVAIL_SORTED_LIST, AVAIL_FILTER_DATA,
       AVAIL_UCS_SHORTNAME, AVAIL_UCS_DESCRIPTION, AVAIL_UCS_MANUF_DESC,
       AVAIL_UCS_DFLT_DESC, AVAIL_UCS_MANUF_DFLT_DESC] ∧
    (∀ k : Nat, k ≤ 8 → ∀ j : Nat, j < 8 → ∀ i : Nat, i ≤ j →
      isAvailable (pipelineMaskAfter (doCacheData input s).2 k)
          ((doCacheData input s).2.getD j 0) = true →
      isAvailable (pipelineMaskAfter (doCacheData input s).2 k)
          ((doCacheData input s).2.getD i 0) = true) := by
  have hev : (doCacheData input s).2 =
      [AVAIL_BIOS_COUNT, AVAIL_SORTED_LIST, AVAIL_FILTER_DATA,
       AVAIL_UCS_SHORTNAME, AVAIL_UCS_DESCRIPTION, AVAIL_UCS_MANUF_DESC,
       AVAIL_UCS_DFLT_DESC, AVAIL_UCS_MANUF_DFLT_DESC] := by
    simp only [doCacheData, notifyAvailableT, notifyAvailable]
    by_cases ht : input.tryTitles <;> simp [ht]
  refine ⟨hev, ?_⟩
  rw [hev]
  decide

/-- Witness for C8: after the first two publications the BIOS-count bit is
set whenever the sorted-list bit is. -/
theorem stage_publication_order_witness :
    isAvailable (pipelineMaskAfter (doCacheData exInput initialCacheState).2 2)
        ((doCacheData exInput initialCacheState).2.getD 0 0) = true :=
  (stage_publication_order exInput initialCacheState).2 2 (by decide) 1
    (by decide) 0 (by decide) (by decide)

theorem runBuild_sorted_list_congr (input : BuildInput) (s1 s2 : CacheState)
    (h : s1.sorted_list = s2.sorted_list) :
    (runBuild input s1).sorted_list = (runBuild input s2).sorted_list := by
  simp only [runBuild, doCacheData, notifyAvailableT, notifyAvailable,
    populateList]
  by_cases ht : input.tryTitles <;> simp [ht, h]

/-- C9: after `reset_cache` every stage bit reads unavailable and all
derived storage is empty/zero, and a rebuild from the reset state over
identical catalog input produces the same sorted list as a build from the
fresh state (the build is deterministic in its input). -/
theorem reset_then_rebuild (input : BuildInput) (s : CacheState) :
    (∀ b ∈ [AVAIL_SORTED_LIST, AVAIL_BIOS_COUNT, AVAIL_UCS_SHORTNAME,
        AVAIL_UCS_DESCRIPTION, AVAIL_UCS_MANUF_DESC, AVAIL_UCS_DFLT_DESC,
        AVAIL_UCS_MANUF_DFLT_DESC, AVAIL_FILTER_DATA],
      isAvailable (resetCache s).m_available b = false) ∧
    (resetCache s).sorted_list = [] ∧
    (resetCache s).filter_data = emptyFilterData ∧
    (resetCache s).bios_count = 0 ∧
    (cacheData input (resetCache s)).sorted_list =
      (cacheData input initialCacheState).sorted_list := by
  refine ⟨?_, rfl, rfl, rfl, ?_⟩
  · intro b hb
    have hm : (resetCache s).m_available = 0 := rfl
    rw [hm]
    simp only [List.mem_cons, List.not_mem_nil, or_false] at hb
    rcases hb with rfl | rfl | rfl | rfl | rfl | rfl | rfl | rfl <;> decide
  · have h1 : ¬ (resetCache s).started = true := by
      intro hcon
      cases hcon
    have h2 : ¬ initialCacheState.started = true := by
      intro hcon
      cases hcon
    unfold cacheData
    rw [if_neg h1, if_neg h2]
    exact runBuild_sorted_list_congr input _ _ rfl

/-- Witness for C9 at the concrete catalog, from a state that had completed
a build. -/
theorem reset_then_rebuild_witness :
    isAvailable
        (resetCache (cacheData exInput initialCacheState)).m_available
        AVAIL_SORTED_LIST = false ∧
    (cacheData exInput
        (resetCache (cacheData exInput initialCacheState))).sorted_list =
      (cacheData exInput initialCacheState).sorted_list :=
  ⟨(reset_then_rebuild exInput (cacheData exInput initialCacheState)).1
      AVAIL_SORTED_LIST (by decide),
   (reset_then_rebuild exInput (cacheData exInput initialCacheState)).2.2.2.2⟩

/-! ### Claims C6 and C7 -/

/-- Setting a position to a record that agrees on `f` with whatever was
there leaves the `f`-image of the list unchanged. -/
theorem map_set_eq_of_eq {β : Type _} (f : UiSystemInfo → β) :
    ∀ (l : List UiSystemInfo) (i : Nat) (a : UiSystemInfo),
      (∀ b, l[i]? = some b → f a = f b) →
      (l.set i a).map f = l.map f
  | [], _, _, _ => rfl
  | x :: xs, 0, a, h => by
      simp only [List.set_cons_zero, List.map_cons]
      rw [h x (by rw [List.getElem?_cons_zero])]
  | x :: xs, i + 1, a, h => by
      simp only [List.set_cons_succ, List.map_cons]
      rw [map_set_eq_of_eq f xs i a
        (fun b hb => h b (by rw [List.getElem?_cons_succ]; exact hb))]

theorem applyReadingField_map_description (sn : String) (i : Nat)
    (rd : Option String) (st : List UiSystemInfo × List TitleWarning) :
    (applyReadingField sn i rd st).1.map (fun x => x.description) =
      st.1.map (fun x => x.description) := by
  cases rd with
  | none => rfl
  | some r =>
      by_cases hr : r = ""
      · simp [applyReadingField, hr]
      · cases hg : st.1[i]? with
        | none => simp [applyReadingField, hr, hg]
        | some f1 =>
            simp only [applyReadingField, if_neg hr, hg]
            exact map_set_eq_of_eq _ st.1 i _
              (fun b hb => by rw [hg] at hb; cases hb; rfl)

theorem applyReadingField_map_driver (sn : String) (i : Nat)
    (rd : Option String) (st : List UiSystemInfo × List TitleWarning) :
    (applyReadingField sn i rd st).1.map (fun x => x.driver) =
      st.1.map (fun x => x.driver) := by
  cases rd with
  | none => rfl
  | some r =>
      by_cases hr : r = ""
      · simp [applyReadingField, hr]
      · cases hg : st.1[i]? with
        | none => simp [applyReadingField, hr, hg]
        | some f1 =>
            simp only [applyReadingField, if_neg hr, hg]
            exact map_set_eq_of_eq _ st.1 i _
              (fun b hb => by rw [hg] at hb; cases hb; rfl)

theorem applyReadingField_warnings_ne (sn : String) (i : Nat)
    (rd : Option String) (st : List UiSystemInfo × List TitleWarning)
    (h : st.2 ≠ []) : (applyReadingField sn i rd st).2 ≠ [] := by
  cases rd with
  | none => exact h
  | some r =>
      by_cases hr : r = ""
      · simp [applyReadingField, hr]
      · cases hg : st.1[i]? with
        | none => simpa [applyReadingField, hr, hg] using h
        | some f1 => simpa [applyReadingField, hr, hg] using h

theorem applyDescriptionField_map_driver (sn desc : String) (i : Nat)
    (found : UiSystemInfo) (l : List UiSystemInfo)
    (hfound : l[i]? = some found) :
    (applyDescriptionField sn desc i found l).1.map (fun x => x.driver) =
      l.map (fun x => x.driver) := by
  unfold applyDescriptionField
  split_ifs
  · rfl
  · rfl
  · exact map_set_eq_of_eq _ l i _
      (fun b hb => by rw [hfound] at hb; cases hb; rfl)

theorem applyTitleLine_map_driver (l : List UiSystemInfo) (line : String) :
    (applyTitleLine l line).1.map (fun x => x.driver) =
      l.map (fun x => x.driver) := by
  unfold applyTitleLine
  cases hp : lineFields line with
  | none => rfl
  | some t =>
      obtain ⟨sn, desc, rd⟩ := t
      cases hg : l[lowerBoundIdx l sn]? with
      | none => simp only [applyParsedLine, hg]
      | some found =>
          by_cases hn : found.driver.name ≠ sn
          · simp only [applyParsedLine, hg, if_pos hn]
          · simp only [applyParsedLine, hg, if_neg hn]
            rw [applyReadingField_map_driver,
              applyDescriptionField_map_driver _ _ _ _ _ hg]

theorem foldLines_map_driver (lines : List String) :
    ∀ (l : List UiSystemInfo) (w : List TitleWarning),
      ((lines.foldl
          (fun acc line =>
            let r := applyTitleLine acc.1 line
            (r.1, acc.2 ++ r.2))
          (l, w)).1).map (fun x => x.driver) = l.map (fun x => x.driver) := by
  induction lines with
  | nil => intro l w; rfl
  | cons line lines ih =>
      intro l w
      rw [List.foldl_cons]
      exact (ih _ _).trans (applyTitleLine_map_driver l line)

theorem loadTitlesLines_map_driver (lines : List String)
    (l : List UiSystemInfo) :
    (loadTitlesLines lines l).1.map (fun x => x.driver) =
      l.map (fun x => x.driver) :=
  foldLines_map_driver lines l []

/-- C6 counterexample: the overlay line `"foo\t \tyomi"` has an empty
trimmed description and matches record `foo`; processing emits exactly the
empty-description warning, yet it does change the record (it fills the
reading fields), refuting "leaves the record unchanged". -/
theorem title_warning_counterexample :
    lineFields "foo\t \tyomi" = some ("foo", "", some "yomi") ∧
    (applyTitleLine [fooInfo] "foo\t \tyomi").2 =
      [TitleWarning.emptyDescription "foo"] ∧
    (applyTitleLine [fooInfo] "foo\t \tyomi").1 ≠ [fooInfo] :=
  ⟨by decide, by decide, by decide⟩

/-- C6 (amended): a matched overlay line whose trimmed description is empty,
or whose record already has a non-empty description, leaves the description
of every record unchanged and emits a warning (a reading field on such a
line is still applied to the record); processing continues with the
following lines. -/
theorem title_warning_keeps_description (l : List UiSystemInfo) (line : String)
    (sn desc : String) (rd : Option String)
    (hparse : lineFields line = some (sn, desc, rd))
    (found : UiSystemInfo)
    (hfound : l[lowerBoundIdx l sn]? = some found)
    (hname : found.driver.name = sn)
    (hdup : desc = "" ∨ found.description ≠ "") :
    (applyTitleLine l line).1.map (fun i => i.description) =
      l.map (fun i => i.description) ∧
    (applyTitleLine l line).2 ≠ [] := by
  unfold applyTitleLine
  rw [hparse]
  simp only [applyParsedLine, hfound, if_neg (fun hc : found.driver.name ≠ sn => hc hname)]
  by_cases hd : desc = ""
  · have hstep : applyDescriptionField sn desc (lowerBoundIdx l sn) found l =
        (l, [TitleWarning.emptyDescription sn]) := by
      unfold applyDescriptionField
      rw [if_pos hd]
    rw [hstep]
    exact ⟨applyReadingField_map_description _ _ _ _,
      applyReadingField_warnings_ne _ _ _ _ (by simp)⟩
  · have hfd : found.description ≠ "" := hdup.resolve_left hd
    have hstep : applyDescriptionField sn desc (lowerBoundIdx l sn) found l =
        (l, [TitleWarning.multipleDescriptions sn found.description desc]) := by
      unfold applyDescriptionField
      rw [if_neg hd, if_pos hfd]
    rw [hstep]
    exact ⟨applyReadingField_map_description _ _ _ _,
      applyReadingField_warnings_ne _ _ _ _ (by simp)⟩

/-- Witness for the amended C6 at the concrete record and line. -/
theorem title_warning_keeps_description_witness :
    (applyTitleLine [fooInfo] "foo\t \tyomi").1.map (fun i => i.description) =
      [fooInfo].map (fun i => i.description) ∧
    (applyTitleLine [fooInfo] "foo\t \tyomi").2 ≠ [] :=
  title_warning_keeps_description [fooInfo] "foo\t \tyomi" "foo" ""
    (some "yomi") (by decide) fooInfo (by decide) rfl (Or.inl rfl)

/-- C7: the title loader skips lines with no tab before the terminator and
lines whose shortname has no exact catalog match, modifying nothing and
warning about nothing for such lines; and after the back-fill pass every
record whose catalog full name is non-empty has a non-empty description. -/
theorem title_loader_skips_and_backfills :
    (∀ (l : List UiSystemInfo) (line : String),
        lineFields line = none → applyTitleLine l line = (l, [])) ∧
    (∀ (l : List UiSystemInfo) (line : String) (sn desc : String)
        (rd : Option String), lineFields line = some (sn, desc, rd) →
        (∀ found, l[lowerBoundIdx l sn]? = some found →
          found.driver.name ≠ sn) →
        applyTitleLine l line = (l, [])) ∧
    (∀ (lines : List String) (l : List UiSystemInfo),
        (∀ i ∈ l, i.driver.fullname ≠ "") →
        ∀ r ∈ (loadTitles lines l).1, r.description ≠ "") := by
  refine ⟨?_, ?_, ?_⟩
  · intro l line h
    unfold applyTitleLine
    rw [h]
    rfl
  · intro l line sn desc rd hparse hmiss
    unfold applyTitleLine
    rw [hparse]
    cases hg : l[lowerBoundIdx l sn]? with
    | none => simp [applyParsedLine, hg]
    | some found => simp [applyParsedLine, hg, if_pos (hmiss found hg)]
  · intro lines l hfull r hr
    unfold loadTitles at hr
    simp only [List.mem_map] at hr
    obtain ⟨r0, hr0, rfl⟩ := hr
    unfold backfillDescription
    split
    · have hdr : r0.driver ∈ l.map (fun x => x.driver) := by
        rw [← loadTitlesLines_map_driver lines l]
        exact List.mem_map_of_mem _ hr0
      simp only [List.mem_map] at hdr
      obtain ⟨orig, horig, hdeq⟩ := hdr
      show r0.driver.fullname ≠ ""
      rw [← hdeq]
      exact hfull orig horig
    · assumption

/-- Witness for C7: a tabless line is skipped outright, and the back-fill
of the empty catalog gives the concrete record a non-empty description. -/
theorem title_loader_skips_and_backfills_witness :
    applyTitleLine [fooInfo] "nodata" = ([fooInfo], []) ∧
    ({ fooInfo with description := "Foo Fullname" } : UiSystemInfo).description
      ≠ "" :=
  ⟨title_loader_skips_and_backfills.1 [fooInfo] "nodata" (by decide),
   title_loader_skips_and_backfills.2.2 [] [fooInfo] (by decide) _ (by decide)⟩

/-! ### Claim C10 -/

theorem findIdx_eq_of (p : α → Bool) :
    ∀ (l : List α) (j : Nat) (hj : j < l.length),
      (∀ k (hk : k < l.length), k < j → p (l.get ⟨k, hk⟩) = false) →
      p (l.get ⟨j, hj⟩) = true → l.findIdx p = j
  | [], j, hj, _, _ => absurd hj (by simp)
  | a :: as, 0, _, _, hat => by
      rw [List.findIdx_cons]
      rw [show p a = true from hat]
      rfl
  | a :: as, j + 1, hj, hbefore, hat => by
      have hpa : p a = false := hbefore 0 (Nat.succ_pos _) (Nat.succ_pos j)
      have hrec : as.findIdx p = j :=
        findIdx_eq_of p as j (Nat.lt_of_succ_lt_succ hj)
          (fun k hk hkj =>
            hbefore (k + 1) (Nat.succ_lt_succ hk) (Nat.succ_lt_succ hkj))
          hat
      rw [List.findIdx_cons, hpa, cond_false, hrec]

theorem findIdx_eq_length_of_all (p : α → Bool) :
    ∀ l : List α, (∀ x ∈ l, p x = false) → l.findIdx p = l.length
  | [], _ => rfl
  | a :: as, h => by
      rw [List.findIdx_cons, h a (List.mem_cons_self _ _), cond_false,
        findIdx_eq_length_of_all p as
          (fun x hx => h x (List.mem_cons_of_mem _ hx)),
        List.length_cons]

/-- C10: `populate_parents` resolves a non-trivial parent field through
`lower_bound` and uses the result without an exact-match check: on a
shortname-sorted list, an exact match donates its description and reading;
with no exact match but some entry at or after the parent name, the first
such (unrelated) entry's description is copied; and only when every
shortname sorts before the parent name does the raw parent shortname remain. -/
theorem populate_parents_uses_lower_bound (l : List UiSystemInfo)
    (hsorted : List.Pairwise
      (fun a b => lexLt a.driver.name.data b.driver.name.data = true) l)
    (info : UiSystemInfo) (hpar : info.driver.parent ≠ "0") :
    (∀ (j : Nat) (hj : j < l.length),
        (l.get ⟨j, hj⟩).driver.name = info.driver.parent →
        (parentLookup l info).parent = (l.get ⟨j, hj⟩).description ∧
        (parentLookup l info).reading_parent =
          (l.get ⟨j, hj⟩).reading_description) ∧
    ((∀ e ∈ l, e.driver.name ≠ info.driver.parent) →
      ∀ h : lowerBoundIdx l info.driver.parent < l.length,
        (parentLookup l info).parent =
          (l.get ⟨lowerBoundIdx l info.driver.parent, h⟩).description ∧
        (l.get ⟨lowerBoundIdx l info.driver.parent, h⟩).driver.name ≠
          info.driver.parent) ∧
    ((∀ e ∈ l, compareNames e.driver.name info.driver.parent = true) →
      (parentLookup l info).parent = info.driver.parent) := by
  refine ⟨?_, ?_, ?_⟩
  · intro j hj hname
    have hlb : lowerBoundIdx l info.driver.parent = j := by
      unfold lowerBoundIdx
      apply findIdx_eq_of _ l j hj
      · intro k hk hkj
        rw [Bool.not_eq_false']
        have hpair := List.pairwise_iff_getElem.mp hsorted k j hk hj hkj
        show lexLt (l.get ⟨k, hk⟩).driver.name.data
          info.driver.parent.data = true
        rw [← hname]
        exact hpair
      · rw [Bool.not_eq_true']
        show lexLt (l.get ⟨j, hj⟩).driver.name.data
          info.driver.parent.data = false
        rw [← hname]
        exact lexLt_irrefl _
    have hsome : l[lowerBoundIdx l info.driver.parent]? =
        some (l.get ⟨j, hj⟩) := by
      rw [hlb, List.getElem?_eq_getElem hj]
      rfl
    simp [parentLookup, hpar, hsome]
  · intro hmiss h
    have hsome : l[lowerBoundIdx l info.driver.parent]? =
        some (l.get ⟨lowerBoundIdx l info.driver.parent, h⟩) := by
      rw [List.getElem?_eq_getElem h]
      rfl
    refine ⟨?_, hmiss _ (l.get_mem _ h)⟩
    unfold parentLookup
    rw [if_neg hpar]
    simp only [hsome]
  · intro hall
    have hlen : lowerBoundIdx l info.driver.parent = l.length := by
      unfold lowerBoundIdx
      apply findIdx_eq_length_of_all
      intro x hx
      rw [Bool.not_eq_false']
      exact hall x hx
    have hnone : l[lowerBoundIdx l info.driver.parent]? = none := by
      rw [hlen]
      simp
    unfold parentLookup
    rw [if_neg hpar]
    simp only [hnone]

/-- Fixture entries for the C10 witness: a shortname-sorted two-entry list
and a clone whose parent `mmm` has no exact match. -/
def infoAaa : UiSystemInfo :=
  { driver := ⟨"aaa", "0", "Aaa Game", "M", "1990", false⟩, index := 0,
    description := "Aaa Game" }

def infoZzz : UiSystemInfo :=
  { driver := ⟨"zzz", "0", "Zzz Game", "M", "1990", false⟩, index := 1,
    description := "Zzz Game" }

def parentsList : List UiSystemInfo := [infoAaa, infoZzz]

def cloneInfo : UiSystemInfo :=
  { driver := ⟨"clone1", "mmm", "Clone Game", "M", "1990", false⟩, index := 2,
    is_clone := true }

/-- Witness for C10: the parent `mmm` has no exact match, and the clone
receives the description of the unrelated record `zzz`. -/
theorem populate_parents_uses_lower_bound_witness :
    (parentLookup parentsList cloneInfo).parent =
      (parentsList.get ⟨lowerBoundIdx parentsList cloneInfo.driver.parent,
        by decide⟩).description ∧
    (parentsList.get ⟨lowerBoundIdx parentsList cloneInfo.driver.parent,
        by decide⟩).driver.name ≠ cloneInfo.driver.parent :=
  (populate_parents_uses_lower_bound parentsList (by decide) cloneInfo
      (by decide)).2.1 (by decide) (by decide)

end Selgame
